import Mathlib

/-!
Verification of the allergen classification engine (`src/map_allergens.py`).

This file embeds the allergen classification engine of the repository:
the lexicon `ALLERGEN_MAPPINGS` and the classifier `map_to_common_allergens`,
which lowercases its input, searches every trigger phrase with the regex
pattern `\b<escaped phrase>\b`, collects the labels whose phrase list has at
least one match, and returns the matched labels sorted and joined by `", "`.

Modelling conventions:
* Text is `String` / `List Char`.  All trigger phrases are ASCII, so the
  ASCII fragments of Python's `str.lower`, `str.strip`, `str.isspace` and of
  the regex word-character class `\w` (`[a-zA-Z0-9_]`) are modelled; a
  non-ASCII character is treated as a non-word, non-space character that is
  left unchanged by lowercasing.
* `re.search(r'\b' + re.escape(kw) + r'\b', t)` is embedded as a scan over
  every start position of `t`: the phrase must occur literally (`re.escape`
  makes every phrase character literal) and a `\b` word-boundary test must
  hold immediately before and immediately after the matched span.
* Python regex `\b` holds between positions exactly when one side is a word
  character and the other side (or the string edge) is not.
-/

namespace MapAllergens

/-- Characters stripped by Python `str.strip()` (ASCII whitespace:
tab, newline, vertical tab, form feed, carriage return, space). -/
def pySpace (c : Char) : Bool :=
  c.toNat = 32 || (9 ≤ c.toNat && c.toNat ≤ 13)

/-- Python regex word character `\w` (ASCII fragment):
letters, digits and underscore. -/
def pyWordChar (c : Char) : Bool :=
  (65 ≤ c.toNat && c.toNat ≤ 90) || (97 ≤ c.toNat && c.toNat ≤ 122) ||
    (48 ≤ c.toNat && c.toNat ≤ 57) || c.toNat = 95

/-- ASCII alphanumeric character (letter or digit, without underscore);
this is the reading of the spec's word "alphanumeric". -/
def asciiAlnum (c : Char) : Bool :=
  (65 ≤ c.toNat && c.toNat ≤ 90) || (97 ≤ c.toNat && c.toNat ≤ 122) ||
    (48 ≤ c.toNat && c.toNat ≤ 57)

/-- ASCII letter. -/
def asciiLetter (c : Char) : Bool :=
  (65 ≤ c.toNat && c.toNat ≤ 90) || (97 ≤ c.toNat && c.toNat ≤ 122)

/-- ASCII digit. -/
def asciiDigit (c : Char) : Bool :=
  48 ≤ c.toNat && c.toNat ≤ 57

/-- Python `allergen_text.lower()` (ASCII fragment, per character
`Char.toLower` maps `A`-`Z` to `a`-`z` and keeps everything else). -/
def pyLower (t : List Char) : List Char :=
  t.map Char.toLower

/-- Python `allergen_text.strip()`: drop leading and trailing whitespace. -/
def pyStrip (t : List Char) : List Char :=
  ((t.dropWhile pySpace).reverse.dropWhile pySpace).reverse

/-- The guard of line 88 of `map_allergens.py`:
`not allergen_text or allergen_text.strip() == ""`
(for a string argument, `not s` is true exactly for the empty string). -/
def pyFalsyOrBlank (t : List Char) : Bool :=
  t == [] || pyStrip t == []

/-- The word-character test at position `i` of `t`
(positions outside the text count as non-word). -/
def isWordAt (t : List Char) (i : Nat) : Bool :=
  match t[i]? with
  | some c => pyWordChar c
  | none => false

/-- Python regex `\b` at position `i` of `t`: the position lies between a
word character and a non-word character (string edges are non-word). -/
def boundaryAt (t : List Char) (i : Nat) : Bool :=
  match i with
  | 0 => isWordAt t 0
  | j + 1 => isWordAt t j != isWordAt t (j + 1)

/-- The escaped phrase `kw` matches literally at position `i` of `t`. -/
def strMatchAt (kw : List Char) (t : List Char) (i : Nat) : Bool :=
  match kw with
  | [] => true
  | c :: cs => (t[i]? == some c) && strMatchAt cs t (i + 1)

/-- `re.search(r'\b' + re.escape(kw) + r'\b', t) is not None`:
some start position carries a `\b`-delimited literal occurrence of `kw`. -/
def reSearchBd (kw : List Char) (t : List Char) : Bool :=
  (List.range (t.length + 1)).any fun i =>
    boundaryAt t i && (strMatchAt kw t i && boundaryAt t (i + kw.length))

/-- The dictionary `ALLERGEN_MAPPINGS` of `src/map_allergens.py`
(lines 23-80), in its insertion order. -/
def ALLERGEN_MAPPINGS : List (String × List String) :=
  [ ("milk",
     ["milk", "dairy", "lactose", "casein", "whey", "butter", "cream", "cheese",
      "yogurt", "yoghurt", "ghee", "paneer", "curd", "lactalbumin", "lactoglobulin",
      "milk protein", "milk powder", "skimmed milk", "whole milk", "condensed milk",
      "evaporated milk", "buttermilk", "milk fat", "milk solids", "lait", "milch"]),
    ("egg",
     ["egg", "eggs", "albumin", "albumen", "globulin", "lysozyme", "mayonnaise",
      "meringue", "ovalbumin", "ovomucin", "ovomucoid", "ovovitellin", "egg white",
      "egg yolk", "egg protein", "dried egg", "egg powder", "whole egg",
      "pasteurized egg", "liquid egg"]),
    ("peanut",
     ["peanut", "peanuts", "groundnut", "groundnuts", "arachis", "monkey nut",
      "earth nut", "beer nut", "peanut oil", "peanut butter", "peanut flour",
      "arachis hypogaea", "goober"]),
    ("tree nut",
     ["almond", "almonds", "cashew", "cashews", "walnut", "walnuts", "pecan", "pecans",
      "pistachio", "pistachios", "hazelnut", "hazelnuts", "filbert", "filberts",
      "macadamia", "brazil nut", "brazil nuts", "chestnut", "chestnuts", "pine nut",
      "pine nuts", "praline", "marzipan", "nougat", "gianduja", "tree nut", "tree nuts",
      "nut", "nuts", "mixed nuts", "coconut"]),
    ("wheat",
     ["wheat", "gluten", "flour", "bread", "breadcrumbs", "bulgur", "couscous",
      "durum", "einkorn", "emmer", "farina", "kamut", "semolina", "spelt", "triticale",
      "wheat germ", "wheat bran", "wheat starch", "wheat protein", "wheat flour",
      "whole wheat", "enriched flour", "all purpose flour", "bread flour", "cake flour",
      "seitan", "vital wheat gluten", "modified wheat starch"]),
    ("soy",
     ["soy", "soya", "soybean", "soybeans", "edamame", "miso", "tempeh", "tofu",
      "soy sauce", "soy protein", "soy lecithin", "soy flour", "soy milk", "soy oil",
      "textured vegetable protein", "tvp", "hydrolyzed soy", "soy isolate",
      "soy concentrate", "soya bean", "soja"]),
    ("fish",
     ["fish", "salmon", "tuna", "cod", "haddock", "anchovy", "anchovies", "sardine",
      "sardines", "mackerel", "herring", "trout", "bass", "tilapia", "pollock",
      "catfish", "perch", "pike", "carp", "halibut", "flounder", "sole", "snapper",
      "grouper", "swordfish", "mahi", "fish sauce", "fish oil", "fish protein",
      "fish gelatin", "omega 3", "dha", "epa"]),
    ("shellfish",
     ["shellfish", "shrimp", "prawn", "prawns", "crab", "lobster", "crayfish",
      "crawfish", "langoustine", "scallop", "scallops", "clam", "clams", "mussel",
      "mussels", "oyster", "oysters", "squid", "calamari", "octopus", "snail",
      "escargot", "abalone", "cockle", "crustacean", "crustaceans", "mollusc",
      "mollusk", "molluscs", "mollusks"]),
    ("sesame",
     ["sesame", "sesame seed", "sesame seeds", "tahini", "tahina", "halvah", "halva",
      "hummus", "houmous", "sesame oil", "sesame paste", "sesame flour", "goma",
      "til", "benne seed", "sesamum"]) ]

/-- The inner loop of lines 95-100: `any` is the short-circuiting
`for keyword in keywords: ... break`. -/
def labelMatches (keywords : List String) (t : List Char) : Bool :=
  keywords.any fun kw => reSearchBd kw.data t

/-- The set `found_allergens` built by the loop of lines 94-100, as the
sublist of lexicon labels whose keyword list has a match. -/
def foundAllergens (t : List Char) : List String :=
  (ALLERGEN_MAPPINGS.filter fun p => labelMatches p.2 t).map Prod.fst

/-- Python string comparison `<`: lexicographic on Unicode code points. -/
def charListLt : List Char → List Char → Bool
  | _, [] => false
  | [], _ :: _ => true
  | a :: as, b :: bs =>
    a.toNat < b.toNat || (a.toNat = b.toNat && charListLt as bs)

/-- Python `a < b` on strings. -/
def strLt (a b : String) : Bool := charListLt a.data b.data

/-- Python `a <= b` on strings: not `b < a`. -/
def strLe (a b : String) : Bool := !(strLt b a)

/-- `sorted(found_allergens)` (line 103); Python sorts strings by the
code-point lexicographic order `strLe`. -/
def sortedAllergens (t : List Char) : List String :=
  List.insertionSort (fun a b => strLe a b = true) (foundAllergens t)

/-- `map_to_common_allergens` (lines 83-104 of `src/map_allergens.py`). -/
def map_to_common_allergens (allergen_text : String) : String :=
  if pyFalsyOrBlank allergen_text.data then ""
  else String.intercalate ", " (sortedAllergens (pyLower allergen_text.data))

/-- The list of labels the function serializes, in the order in which they
are joined (empty when the guard of line 88 fires). -/
def matchedLabels (allergen_text : String) : List String :=
  if pyFalsyOrBlank allergen_text.data then []
  else sortedAllergens (pyLower allergen_text.data)

/-- The Python caller hands `map_to_common_allergens` the value of a
spreadsheet cell, which may be missing (`None`).  Line 88's
`not allergen_text` is true for `None`, so the function returns `""`
before `.strip()` could be reached. -/
def map_to_common_allergens_opt : Option String → String
  | none => ""
  | some s => map_to_common_allergens s

/-- A well-formed trigger phrase for the boundary analysis: non-empty with
word characters at both ends (every phrase of the lexicon satisfies this). -/
def kwOK (kw : List Char) : Bool :=
  match kw[0]?, kw[kw.length - 1]? with
  | some a, some b => pyWordChar a && pyWordChar b
  | _, _ => false

/-- The character immediately before position `i`, if present, is not a
word character (true at the left edge of the text). -/
def noWordBefore (t : List Char) (i : Nat) : Bool :=
  match i with
  | 0 => true
  | j + 1 => !(isWordAt t j)

/-- Spec-side matching relation, following the spec's words with the code's
`\b` semantics: `kw` occurs literally and the characters immediately before
and after the span, if present, are not word characters. -/
def specOccursWord (kw : List Char) (t : List Char) : Bool :=
  (List.range (t.length + 1)).any fun i =>
    strMatchAt kw t i && (noWordBefore t i && !(isWordAt t (i + kw.length)))

/-- The alphanumeric test at position `i` of `t`
(positions outside the text count as non-alphanumeric). -/
def isAlnumAt (t : List Char) (i : Nat) : Bool :=
  match t[i]? with
  | some c => asciiAlnum c
  | none => false

/-- The character immediately before position `i`, if present, is not
alphanumeric (true at the left edge of the text). -/
def noAlnumBefore (t : List Char) (i : Nat) : Bool :=
  match i with
  | 0 => true
  | j + 1 => !(isAlnumAt t j)

/-- Spec-side matching relation exactly as claim C1 words it: the characters
immediately before and after the span, if present, are not *alphanumeric*. -/
def specOccursAlnum (kw : List Char) (t : List Char) : Bool :=
  (List.range (t.length + 1)).any fun i =>
    strMatchAt kw t i && (noAlnumBefore t i && !(isAlnumAt t (i + kw.length)))

/-- Claim C2's phrase invariant as stated: only letters and spaces. -/
def onlyLettersSpaces (kw : String) : Bool :=
  kw.data.all fun c => asciiLetter c || c.toNat = 32

/-- The amended phrase invariant: only letters, digits and spaces. -/
def onlyLettersDigitsSpaces (kw : String) : Bool :=
  kw.data.all fun c => asciiLetter c || asciiDigit c || c.toNat = 32

/-- A phrase is lowercase: it contains no ASCII uppercase letter. -/
def lowercaseOnly (kw : String) : Bool :=
  kw.data.all fun c => !(65 ≤ c.toNat && c.toNat ≤ 90)

/-! ## Character-level lemmas -/

theorem toNat_ofNat_valid (n : Nat) (h : n.isValidChar) : (Char.ofNat n).toNat = n := by
  simp [Char.ofNat, h, Char.ofNatAux, Char.toNat, UInt32.toNat]

theorem toLower_toNat_of_upper {c : Char} (h65 : 65 ≤ c.toNat) (h90 : c.toNat ≤ 90) :
    (Char.toLower c).toNat = c.toNat + 32 := by
  unfold Char.toLower
  rw [if_pos ⟨h65, h90⟩]
  exact toNat_ofNat_valid _ (Or.inl (by omega))

theorem toLower_eq_self {c : Char} (h : ¬(65 ≤ c.toNat ∧ c.toNat ≤ 90)) :
    Char.toLower c = c := by
  unfold Char.toLower
  rw [if_neg h]

theorem pySpace_toLower (c : Char) : pySpace (Char.toLower c) = pySpace c := by
  by_cases h : 65 ≤ c.toNat ∧ c.toNat ≤ 90
  · have ht := toLower_toNat_of_upper h.1 h.2
    simp only [pySpace, ht]
    have h1 : (c.toNat + 32 = 32) = False := by simp; omega
    have h2 : (c.toNat = 32) = False := by simp; omega
    simp [h1, h2]
    omega
  · rw [toLower_eq_self h]

theorem toLower_idem (c : Char) : Char.toLower (Char.toLower c) = Char.toLower c := by
  by_cases h : 65 ≤ c.toNat ∧ c.toNat ≤ 90
  · have ht := toLower_toNat_of_upper h.1 h.2
    apply toLower_eq_self
    omega
  · rw [toLower_eq_self h, toLower_eq_self h]

theorem toLower_eq_self_of_space {c : Char} (h : pySpace c = true) :
    Char.toLower c = c := by
  apply toLower_eq_self
  simp only [pySpace, Bool.or_eq_true, Bool.and_eq_true, decide_eq_true_eq] at h
  omega

theorem pyWordChar_of_pySpace {c : Char} (h : pySpace c = true) :
    pyWordChar c = false := by
  simp only [pySpace, Bool.or_eq_true, Bool.and_eq_true, decide_eq_true_eq] at h
  simp only [pyWordChar, Bool.or_eq_false_iff, Bool.and_eq_false_iff,
    decide_eq_false_iff_not, not_le]
  omega

/-! ## The literal occurrence predicate -/

theorem strMatchAt_getElem {kw t : List Char} {i : Nat} (h : strMatchAt kw t i = true) :
    ∀ j, j < kw.length → t[i + j]? = kw[j]? := by
  induction kw generalizing i with
  | nil => intro j hj; simp at hj
  | cons c cs ih =>
    simp only [strMatchAt, Bool.and_eq_true, beq_iff_eq] at h
    intro j hj
    cases j with
    | zero => simpa using h.1
    | succ k =>
      have := ih h.2 k (by simpa using hj)
      rw [show i + (k + 1) = i + 1 + k by omega]
      simpa using this

theorem strMatchAt_mem {kw t : List Char} {i : Nat} (h : strMatchAt kw t i = true)
    {j : Nat} (hj : j < kw.length) : ∃ hlt : i + j < t.length, t[i + j] = kw[j] := by
  have := strMatchAt_getElem h j hj
  rw [List.getElem?_eq_getElem hj] at this
  have hlt : i + j < t.length := by
    by_contra hge
    rw [List.getElem?_eq_none (by omega)] at this
    exact Option.noConfusion this
  refine ⟨hlt, ?_⟩
  rw [List.getElem?_eq_getElem hlt] at this
  exact Option.some.inj this

theorem strMatchAt_append_right {kw t : List Char} (w : List Char) {i : Nat}
    (h : strMatchAt kw t i = true) : strMatchAt kw (t ++ w) i = true := by
  induction kw generalizing i with
  | nil => rfl
  | cons c cs ih =>
    simp only [strMatchAt, Bool.and_eq_true, beq_iff_eq] at h ⊢
    refine ⟨?_, ih h.2⟩
    have hlt : i < t.length := by
      by_contra hge
      rw [List.getElem?_eq_none (by omega)] at h
      exact Option.noConfusion h.1
    rw [List.getElem?_append_left hlt]
    exact h.1

theorem strMatchAt_shift {kw t : List Char} (u : List Char) {i : Nat}
    (h : strMatchAt kw t i = true) : strMatchAt kw (u ++ t) (u.length + i) = true := by
  induction kw generalizing i with
  | nil => rfl
  | cons c cs ih =>
    simp only [strMatchAt, Bool.and_eq_true, beq_iff_eq] at h ⊢
    refine ⟨?_, ?_⟩
    · rw [List.getElem?_append_right (by omega)]
      rw [show u.length + i - u.length = i by omega]
      exact h.1
    · rw [Nat.add_assoc]
      exact ih h.2

theorem strMatchAt_le_length {kw t : List Char} {i : Nat}
    (h : strMatchAt kw t i = true) (hlen : 0 < kw.length) :
    i + kw.length ≤ t.length := by
  obtain ⟨hlt, _⟩ := strMatchAt_mem h (j := kw.length - 1) (by omega)
  omega

/-! ## Well-formed phrases and the boundary equivalence -/

theorem kwOK_dest {kw : List Char} (hk : kwOK kw = true) :
    ∃ a b, kw[0]? = some a ∧ kw[kw.length - 1]? = some b ∧
      pyWordChar a = true ∧ pyWordChar b = true := by
  unfold kwOK at hk
  cases h0 : kw[0]? with
  | none => rw [h0] at hk; simp at hk
  | some a =>
    cases h1 : kw[kw.length - 1]? with
    | none => rw [h0, h1] at hk; simp at hk
    | some b =>
      rw [h0, h1] at hk
      simp only [Bool.and_eq_true] at hk
      exact ⟨a, b, rfl, rfl, hk.1, hk.2⟩

theorem kwOK_ne_nil {kw : List Char} (hk : kwOK kw = true) : 0 < kw.length := by
  obtain ⟨a, _, h0, _, _, _⟩ := kwOK_dest hk
  by_contra hle
  rw [List.getElem?_eq_none (by omega)] at h0
  exact Option.noConfusion h0

theorem boundaryAt_zero (t : List Char) : boundaryAt t 0 = isWordAt t 0 := rfl

theorem boundaryAt_succ (t : List Char) (j : Nat) :
    boundaryAt t (j + 1) = (isWordAt t j != isWordAt t (j + 1)) := rfl

theorem noWordBefore_zero (t : List Char) : noWordBefore t 0 = true := rfl

theorem noWordBefore_succ (t : List Char) (j : Nat) :
    noWordBefore t (j + 1) = !(isWordAt t j) := rfl

theorem point_eq {kw t : List Char} (hk : kwOK kw = true) (i : Nat) :
    (boundaryAt t i && (strMatchAt kw t i && boundaryAt t (i + kw.length)))
    = (strMatchAt kw t i && (noWordBefore t i && !(isWordAt t (i + kw.length)))) := by
  cases hm : strMatchAt kw t i with
  | false => simp
  | true =>
    obtain ⟨a, b, h0, h1, ha, hb⟩ := kwOK_dest hk
    have hlen : 0 < kw.length := kwOK_ne_nil hk
    have hti : t[i]? = some a := by
      have := strMatchAt_getElem hm 0 hlen
      simpa [h0] using this
    have hwi : isWordAt t i = true := by
      unfold isWordAt; rw [hti]; exact ha
    have htl : t[i + (kw.length - 1)]? = some b := by
      have := strMatchAt_getElem hm (kw.length - 1) (by omega)
      rw [h1] at this; exact this
    have hwl : isWordAt t (i + (kw.length - 1)) = true := by
      unfold isWordAt; rw [htl]; exact hb
    have hbdi : boundaryAt t i = noWordBefore t i := by
      cases i with
      | zero => rw [boundaryAt_zero, noWordBefore_zero, hwi]
      | succ j =>
        rw [boundaryAt_succ, noWordBefore_succ, hwi]
        cases isWordAt t j <;> rfl
    have hbde : boundaryAt t (i + kw.length) = !(isWordAt t (i + kw.length)) := by
      have he : i + kw.length = (i + (kw.length - 1)) + 1 := by omega
      rw [he, boundaryAt_succ, hwl]
      cases isWordAt t (i + (kw.length - 1) + 1) <;> rfl
    rw [hbdi, hbde]
    simp

theorem reSearchBd_eq_specOccursWord {kw t : List Char} (hk : kwOK kw = true) :
    reSearchBd kw t = specOccursWord kw t := by
  unfold reSearchBd specOccursWord
  congr 1
  funext i
  exact point_eq hk i

/-! ## The guard of line 88 -/

theorem pyStrip_eq_nil_iff (t : List Char) :
    pyStrip t = [] ↔ ∀ c ∈ t, pySpace c = true := by
  unfold pyStrip
  rw [List.reverse_eq_nil_iff, List.dropWhile_eq_nil_iff]
  constructor
  · intro h c hc
    have ht := List.takeWhile_append_dropWhile (p := pySpace) (l := t)
    rw [← ht] at hc
    rcases List.mem_append.mp hc with h1 | h2
    · exact List.mem_takeWhile_imp h1
    · exact h c (List.mem_reverse.mpr h2)
  · intro h c hc
    exact h c ((List.dropWhile_sublist pySpace).subset (List.mem_reverse.mp hc))

theorem pyFalsyOrBlank_eq_all (t : List Char) :
    pyFalsyOrBlank t = t.all pySpace := by
  unfold pyFalsyOrBlank
  cases ha : t.all pySpace with
  | true =>
    rw [List.all_eq_true] at ha
    simp [pyStrip_eq_nil_iff]
    exact Or.inr ha
  | false =>
    simp only [Bool.or_eq_false_iff, beq_eq_false_iff_ne, ne_eq]
    constructor
    · intro ht
      rw [ht] at ha
      simp at ha
    · intro hs
      rw [pyStrip_eq_nil_iff] at hs
      rw [List.all_eq_true.mpr hs] at ha
      exact Bool.noConfusion ha

/-! ## Extension of whole-word matches across a space separator -/

theorem isWordAt_append_nonword {t : List Char} {c : Char} (hc : pyWordChar c = false)
    (w : List Char) {p : Nat} (hp : p ≤ t.length) :
    isWordAt (t ++ c :: w) p = isWordAt t p := by
  unfold isWordAt
  rcases Nat.lt_or_ge p t.length with hlt | hge
  · rw [List.getElem?_append_left hlt]
  · have hpe : p = t.length := by omega
    subst hpe
    rw [List.getElem?_append_right (Nat.le_refl _)]
    rw [Nat.sub_self, List.getElem?_cons_zero]
    rw [List.getElem?_eq_none (Nat.le_refl _)]
    exact hc

theorem isWordAt_shift (v : List Char) (c : Char) (t : List Char) (p : Nat) :
    isWordAt (v ++ c :: t) (v.length + 1 + p) = isWordAt t p := by
  unfold isWordAt
  rw [List.getElem?_append_right (by omega)]
  rw [show v.length + 1 + p - v.length = p + 1 by omega]
  rw [List.getElem?_cons_succ]

theorem specOccursWord_append_right {kw t : List Char} {c : Char} (w : List Char)
    (hk : kwOK kw = true) (hc : pyWordChar c = false)
    (h : specOccursWord kw t = true) : specOccursWord kw (t ++ c :: w) = true := by
  unfold specOccursWord at h ⊢
  rw [List.any_eq_true] at h ⊢
  obtain ⟨i, hi, hcond⟩ := h
  simp only [Bool.and_eq_true] at hcond
  obtain ⟨hm, hnwb, hafter⟩ := hcond
  have hlen : 0 < kw.length := kwOK_ne_nil hk
  have hle : i + kw.length ≤ t.length := strMatchAt_le_length hm hlen
  refine ⟨i, List.mem_range.mpr ?_, ?_⟩
  · have := List.mem_range.mp hi
    simp only [List.length_append, List.length_cons]
    omega
  · simp only [Bool.and_eq_true]
    refine ⟨strMatchAt_append_right _ hm, ?_, ?_⟩
    · cases i with
      | zero => rfl
      | succ j =>
        rw [noWordBefore_succ] at hnwb ⊢
        rw [isWordAt_append_nonword hc w (by omega)]
        exact hnwb
    · rw [isWordAt_append_nonword hc w hle]
      exact hafter

theorem specOccursWord_shift {kw t : List Char} {c : Char} (v : List Char)
    (hc : pyWordChar c = false)
    (h : specOccursWord kw t = true) : specOccursWord kw (v ++ c :: t) = true := by
  unfold specOccursWord at h ⊢
  rw [List.any_eq_true] at h ⊢
  obtain ⟨i, hi, hcond⟩ := h
  simp only [Bool.and_eq_true] at hcond
  obtain ⟨hm, hnwb, hafter⟩ := hcond
  refine ⟨v.length + 1 + i, List.mem_range.mpr ?_, ?_⟩
  · have := List.mem_range.mp hi
    simp only [List.length_append, List.length_cons]
    omega
  · simp only [Bool.and_eq_true]
    refine ⟨?_, ?_, ?_⟩
    · have := strMatchAt_shift (v ++ [c]) hm
      rw [List.append_assoc] at this
      simp only [List.singleton_append] at this
      rw [List.length_append, List.length_cons, List.length_nil] at this
      rw [show v.length + 1 + i = v.length + 0 + 1 + i by omega]
      exact this
    · cases i with
      | zero =>
        rw [show v.length + 1 + 0 = v.length + 1 by omega, noWordBefore_succ]
        unfold isWordAt
        rw [List.getElem?_append_right (Nat.le_refl _), Nat.sub_self,
          List.getElem?_cons_zero]
        simp [hc]
      | succ j =>
        rw [show v.length + 1 + (j + 1) = (v.length + 1 + j) + 1 by omega,
          noWordBefore_succ]
        rw [isWordAt_shift]
        rw [noWordBefore_succ] at hnwb
        exact hnwb
    · rw [show v.length + 1 + i + kw.length = v.length + 1 + (i + kw.length) by omega]
      rw [isWordAt_shift]
      exact hafter

/-! ## The code-point lexicographic order used by `sorted` -/

theorem char_eq_of_toNat_eq {a b : Char} (h : a.toNat = b.toNat) : a = b := by
  rw [← Char.ofNat_toNat a, ← Char.ofNat_toNat b, h]

theorem charListLt_irrefl (as : List Char) : charListLt as as = false := by
  induction as with
  | nil => rfl
  | cons a as ih => simp [charListLt, ih]

theorem charListLt_trans {as bs cs : List Char} (h1 : charListLt as bs = true)
    (h2 : charListLt bs cs = true) : charListLt as cs = true := by
  induction as generalizing bs cs with
  | nil =>
    cases cs with
    | nil => cases bs <;> simp [charListLt] at h2
    | cons c cs => rfl
  | cons a as ih =>
    cases bs with
    | nil => simp [charListLt] at h1
    | cons b bs =>
      cases cs with
      | nil => simp [charListLt] at h2
      | cons c cs =>
        simp only [charListLt, Bool.or_eq_true, Bool.and_eq_true,
          decide_eq_true_eq] at h1 h2 ⊢
        rcases h1 with h1 | ⟨h1e, h1r⟩
        · rcases h2 with h2 | ⟨h2e, h2r⟩
          · left; omega
          · left; omega
        · rcases h2 with h2 | ⟨h2e, h2r⟩
          · left; omega
          · right; exact ⟨by omega, ih h1r h2r⟩

theorem charListLt_asymm {as bs : List Char} (h : charListLt as bs = true) :
    charListLt bs as = false := by
  cases hx : charListLt bs as with
  | false => rfl
  | true =>
    have := charListLt_trans h hx
    rw [charListLt_irrefl] at this
    exact Bool.noConfusion this

theorem charListLt_trichotomy (as bs : List Char) :
    charListLt as bs = true ∨ as = bs ∨ charListLt bs as = true := by
  induction as generalizing bs with
  | nil =>
    cases bs with
    | nil => right; left; rfl
    | cons b bs => left; rfl
  | cons a as ih =>
    cases bs with
    | nil => right; right; rfl
    | cons b bs =>
      rcases Nat.lt_trichotomy a.toNat b.toNat with h | h | h
      · left; simp [charListLt, h]
      · rcases ih bs with h2 | h2 | h2
        · left; simp [charListLt, h, h2]
        · right; left; rw [char_eq_of_toNat_eq h, h2]
        · right; right; simp [charListLt, h.symm, h2]
      · right; right; simp [charListLt, h]

instance : IsTotal String (fun a b => strLe a b = true) := by
  constructor
  intro a b
  unfold strLe strLt
  cases h : charListLt b.data a.data with
  | false => left; rfl
  | true => right; rw [charListLt_asymm h]; rfl

instance : IsTrans String (fun a b => strLe a b = true) := by
  constructor
  intro a b c hab hbc
  unfold strLe strLt at hab hbc ⊢
  rw [Bool.not_eq_true'] at hab hbc ⊢
  cases hca : charListLt c.data a.data with
  | false => rfl
  | true =>
    exfalso
    rcases charListLt_trichotomy a.data b.data with h | h | h
    · have := charListLt_trans hca h
      rw [hbc] at this
      exact Bool.noConfusion this
    · rw [h] at hca
      rw [hbc] at hca
      exact Bool.noConfusion hca
    · rw [hab] at h
      exact Bool.noConfusion h

theorem strLt_of_strLe_ne {a b : String} (h : strLe a b = true) (hne : a ≠ b) :
    strLt a b = true := by
  unfold strLe at h
  rw [Bool.not_eq_true'] at h
  unfold strLt at h ⊢
  rcases charListLt_trichotomy a.data b.data with h2 | h2 | h2
  · exact h2
  · exact absurd (by cases a; cases b; exact congrArg String.mk h2) hne
  · rw [h] at h2
    exact Bool.noConfusion h2

/-! ## The label list produced by the classifier -/

theorem lexicon_kwOK :
    (ALLERGEN_MAPPINGS.all fun p => p.2.all fun kw => kwOK kw.data) = true := by decide

theorem lexicon_keys_nodup : (ALLERGEN_MAPPINGS.map Prod.fst).Nodup := by decide

theorem kwOK_of_mem {p : String × List String} {kw : String}
    (hp : p ∈ ALLERGEN_MAPPINGS) (hkw : kw ∈ p.2) : kwOK kw.data = true := by
  have h1 := List.all_eq_true.mp lexicon_kwOK _ hp
  exact List.all_eq_true.mp h1 _ hkw

theorem foundAllergens_nodup (t : List Char) : (foundAllergens t).Nodup := by
  unfold foundAllergens
  exact lexicon_keys_nodup.sublist (List.Sublist.map Prod.fst (List.filter_sublist _))

theorem sortedAllergens_perm (t : List Char) :
    List.Perm (sortedAllergens t) (foundAllergens t) :=
  List.perm_insertionSort _ _

theorem sortedAllergens_nodup (t : List Char) : (sortedAllergens t).Nodup :=
  (sortedAllergens_perm t).nodup_iff.mpr (foundAllergens_nodup t)

theorem sortedAllergens_sorted (t : List Char) :
    List.Sorted (fun a b => strLt a b = true) (sortedAllergens t) := by
  have hs : List.Sorted (fun a b => strLe a b = true) (sortedAllergens t) :=
    List.sorted_insertionSort _ _
  exact hs.imp₂ (fun a b hle hne => strLt_of_strLe_ne hle hne) (sortedAllergens_nodup t)

theorem mem_foundAllergens_intro {t : List Char} {p : String × List String}
    (hp : p ∈ ALLERGEN_MAPPINGS) (h : labelMatches p.2 t = true) :
    p.1 ∈ foundAllergens t :=
  List.mem_map.mpr ⟨p, List.mem_filter.mpr ⟨hp, h⟩, rfl⟩

theorem mem_foundAllergens {t : List Char} {p : String × List String}
    (hp : p ∈ ALLERGEN_MAPPINGS) :
    p.1 ∈ foundAllergens t ↔ labelMatches p.2 t = true := by
  constructor
  · intro hmem
    obtain ⟨q, hq, hq1⟩ := List.mem_map.mp hmem
    obtain ⟨hqmem, hqmatch⟩ := List.mem_filter.mp hq
    have hqp : q = p :=
      List.inj_on_of_nodup_map lexicon_keys_nodup hqmem hp hq1
    rw [← hqp]
    exact hqmatch
  · exact mem_foundAllergens_intro hp

theorem mem_sortedAllergens {t : List Char} {p : String × List String}
    (hp : p ∈ ALLERGEN_MAPPINGS) :
    p.1 ∈ sortedAllergens t ↔ labelMatches p.2 t = true := by
  rw [(sortedAllergens_perm t).mem_iff]
  exact mem_foundAllergens hp

/-! ## Reduction of the two branches of the classifier -/

theorem map_eq_of_blank {s : String} (h : pyFalsyOrBlank s.data = true) :
    map_to_common_allergens s = "" := by
  unfold map_to_common_allergens
  rw [h]
  rfl

theorem map_eq_of_not_blank {s : String} (h : pyFalsyOrBlank s.data = false) :
    map_to_common_allergens s =
      String.intercalate ", " (sortedAllergens (pyLower s.data)) := by
  unfold map_to_common_allergens
  rw [h]
  rfl

theorem matchedLabels_of_blank {s : String} (h : pyFalsyOrBlank s.data = true) :
    matchedLabels s = [] := by
  unfold matchedLabels
  rw [h]
  rfl

theorem matchedLabels_of_not_blank {s : String} (h : pyFalsyOrBlank s.data = false) :
    matchedLabels s = sortedAllergens (pyLower s.data) := by
  unfold matchedLabels
  rw [h]
  rfl

/-! ## A label matches iff one of its phrases occurs whole-word -/

theorem labelMatches_iff_spec {p : String × List String} (hp : p ∈ ALLERGEN_MAPPINGS)
    (t : List Char) :
    labelMatches p.2 t = true ↔ ∃ kw ∈ p.2, specOccursWord kw.data t = true := by
  unfold labelMatches
  rw [List.any_eq_true]
  constructor
  · rintro ⟨kw, hkw, hsearch⟩
    refine ⟨kw, hkw, ?_⟩
    rw [← reSearchBd_eq_specOccursWord (kwOK_of_mem hp hkw)]
    exact hsearch
  · rintro ⟨kw, hkw, hspec⟩
    refine ⟨kw, hkw, ?_⟩
    rw [reSearchBd_eq_specOccursWord (kwOK_of_mem hp hkw)]
    exact hspec

theorem specOccursWord_of_allSpace {kw t : List Char} (hk : kwOK kw = true)
    (hs : t.all pySpace = true) : specOccursWord kw t = false := by
  cases h : specOccursWord kw t with
  | false => rfl
  | true =>
    exfalso
    unfold specOccursWord at h
    rw [List.any_eq_true] at h
    obtain ⟨i, _, hcond⟩ := h
    rw [Bool.and_eq_true] at hcond
    obtain ⟨a, b, h0, h1, ha, hb⟩ := kwOK_dest hk
    have hlen : 0 < kw.length := kwOK_ne_nil hk
    obtain ⟨hlt, heq⟩ := strMatchAt_mem hcond.1 (j := 0) hlen
    have hk0 : kw[0] = a := by
      rw [List.getElem?_eq_getElem hlen] at h0
      exact Option.some.inj h0
    have hsp : pySpace t[i + 0] = true :=
      List.all_eq_true.mp hs _ (List.getElem_mem hlt)
    rw [heq, hk0] at hsp
    rw [pyWordChar_of_pySpace hsp] at ha
    exact Bool.noConfusion ha

theorem pyLower_allSpace {t : List Char} (h : t.all pySpace = true) :
    (pyLower t).all pySpace = true := by
  unfold pyLower
  rw [List.all_map]
  rw [List.all_eq_true] at h ⊢
  intro c hc
  simpa [pySpace_toLower] using h c hc

theorem pyLower_of_allSpace {t : List Char} (h : t.all pySpace = true) :
    pyLower t = t := by
  unfold pyLower
  rw [List.all_eq_true] at h
  have hc : ∀ c ∈ t, Char.toLower c = id c := fun c hc =>
    toLower_eq_self_of_space (h c hc)
  rw [List.map_congr_left hc, List.map_id]

theorem mem_matchedLabels {s : String} {p : String × List String}
    (hp : p ∈ ALLERGEN_MAPPINGS) :
    p.1 ∈ matchedLabels s ↔
      ∃ kw ∈ p.2, specOccursWord kw.data (pyLower s.data) = true := by
  cases hb : pyFalsyOrBlank s.data with
  | true =>
    rw [matchedLabels_of_blank hb]
    rw [pyFalsyOrBlank_eq_all] at hb
    simp only [List.not_mem_nil, false_iff, not_exists]
    rintro kw ⟨hkw, hocc⟩
    rw [specOccursWord_of_allSpace (kwOK_of_mem hp hkw) (pyLower_allSpace hb)] at hocc
    exact Bool.noConfusion hocc
  | false =>
    rw [matchedLabels_of_not_blank hb]
    exact (mem_sortedAllergens hp).trans (labelMatches_iff_spec hp _)

/-! ## Claims -/

/-- C1 (amended): for every input string, the result of
`map_to_common_allergens` contains a lexicon label if and only if at least
one of that label's trigger phrases occurs in the lowercased input with the
characters immediately before and after the matched span, if present, not
being *word characters* (alphanumeric or underscore — Python's `\b` uses
`\w`, so an adjacent underscore also blocks a match, unlike the claim's
plain "alphanumeric"); labels are decided independently of each other. -/
theorem C1_whole_word_iff (s : String) :
    ∀ p ∈ ALLERGEN_MAPPINGS,
      (p.1 ∈ matchedLabels s ↔
        ∃ kw ∈ p.2, specOccursWord kw.data (pyLower s.data) = true) :=
  fun _ hp => mem_matchedLabels hp

/-- Witness for C1: instantiating the equivalence at the input
`"fresh milk"` and the `milk` entry of the lexicon. -/
theorem C1_whole_word_iff_witness : "milk" ∈ matchedLabels "fresh milk" :=
  (C1_whole_word_iff "fresh milk" ("milk",
      ["milk", "dairy", "lactose", "casein", "whey", "butter", "cream", "cheese",
       "yogurt", "yoghurt", "ghee", "paneer", "curd", "lactalbumin", "lactoglobulin",
       "milk protein", "milk powder", "skimmed milk", "whole milk", "condensed milk",
       "evaporated milk", "buttermilk", "milk fat", "milk solids", "lait", "milch"])
      (by decide)).mpr (by decide)

/-- Counterexample to C1 as stated: on the input `"milk_"` the phrase
`"milk"` occurs with no *alphanumeric* neighbor (the following `_` is not
alphanumeric), yet the code's `\b` treats `_` as a word character, so the
result does not contain `milk` and the claimed equivalence fails. -/
theorem C1_counterexample :
    ¬ (∀ p ∈ ALLERGEN_MAPPINGS,
        (p.1 ∈ matchedLabels "milk_" ↔
          ∃ kw ∈ p.2, specOccursAlnum kw.data (pyLower "milk_".data) = true)) := by
  decide

/-- C2 (amended): the lexicon maps exactly the nine canonical labels, in
source order; every label has at least one trigger phrase; and every
trigger phrase is non-empty, lowercase, and contains only letters, *digits*
and spaces (the phrase `"omega 3"` contains a digit, so the claim's
"only letters and spaces" is too strong). -/
theorem C2_lexicon_invariant :
    ALLERGEN_MAPPINGS.map Prod.fst =
      ["milk", "egg", "peanut", "tree nut", "wheat", "soy", "fish",
       "shellfish", "sesame"] ∧
    (ALLERGEN_MAPPINGS.all fun p => !p.2.isEmpty &&
      p.2.all fun kw =>
        !kw.isEmpty && lowercaseOnly kw && onlyLettersDigitsSpaces kw) = true := by
  exact ⟨by decide, by decide⟩

/-- Counterexample to C2 as stated: the fish entry contains the trigger
phrase `"omega 3"`, which has a character (`'3'`) that is neither a letter
nor a space. -/
theorem C2_counterexample :
    (ALLERGEN_MAPPINGS.any fun p => p.1 == "fish" && p.2.contains "omega 3") = true ∧
    onlyLettersSpaces "omega 3" = false := by
  exact ⟨by decide, by decide⟩

/-- C3: for every input that is empty or consists only of whitespace, the
guard of line 88 fires and `map_to_common_allergens` returns `""`. -/
theorem C3_blank_input (s : String) (h : s.data.all pySpace = true) :
    map_to_common_allergens s = "" := by
  apply map_eq_of_blank
  rw [pyFalsyOrBlank_eq_all]
  exact h

/-- Witness for C3 at the whitespace-only input `" "`. -/
theorem C3_blank_input_witness : map_to_common_allergens " " = "" :=
  C3_blank_input " " (by decide)

/-- C4: the returned string joins the matched labels with `", "` in strictly
ascending code-point lexicographic order, and is `""` (not a placeholder)
when no label matches. -/
theorem C4_sorted_serialization (s : String) :
    map_to_common_allergens s = String.intercalate ", " (matchedLabels s) ∧
    List.Sorted (fun a b => strLt a b = true) (matchedLabels s) ∧
    (matchedLabels s = [] → map_to_common_allergens s = "") := by
  have h1 : map_to_common_allergens s = String.intercalate ", " (matchedLabels s) := by
    cases hb : pyFalsyOrBlank s.data with
    | true => rw [map_eq_of_blank hb, matchedLabels_of_blank hb]; rfl
    | false => rw [map_eq_of_not_blank hb, matchedLabels_of_not_blank hb]
  refine ⟨h1, ?_, ?_⟩
  · cases hb : pyFalsyOrBlank s.data with
    | true => rw [matchedLabels_of_blank hb]; exact List.sorted_nil
    | false => rw [matchedLabels_of_not_blank hb]; exact sortedAllergens_sorted _
  · intro hnil
    rw [h1, hnil]
    rfl

/-- Witness for C4's implication at an input matching no label. -/
theorem C4_sorted_serialization_witness : map_to_common_allergens "zzz" = "" :=
  (C4_sorted_serialization "zzz").2.2 (by decide)

/-- C5: the embedding of `map_to_common_allergens` is a total function on
strings (it is a Lean `def` with no partiality), and whenever no label's
phrase list matches the lowercased input it returns the empty string. -/
theorem C5_total_no_match (s : String)
    (h : ∀ p ∈ ALLERGEN_MAPPINGS, labelMatches p.2 (pyLower s.data) = false) :
    map_to_common_allergens s = "" := by
  have hfil : (ALLERGEN_MAPPINGS.filter fun p => labelMatches p.2 (pyLower s.data)) = [] :=
    List.filter_eq_nil_iff.mpr fun p hp => by simp [h p hp]
  have hf : foundAllergens (pyLower s.data) = [] := by
    unfold foundAllergens
    rw [hfil]
    rfl
  cases hb : pyFalsyOrBlank s.data with
  | true => exact map_eq_of_blank hb
  | false =>
    rw [map_eq_of_not_blank hb]
    unfold sortedAllergens
    rw [hf]
    rfl

/-- Witness for C5 at the non-matching input `"hello world"`. -/
theorem C5_total_no_match_witness : map_to_common_allergens "hello world" = "" :=
  C5_total_no_match "hello world" (by decide)

/-- C6: `"doughnut shop"` contains the generic phrase `"nut"` as a plain
substring (at offset 5), but the `\b`-delimited search rejects it, so the
result does not contain `tree nut` (and is in fact empty). -/
theorem C6_doughnut_boundary :
    "tree nut" ∉ matchedLabels "doughnut shop" ∧
    (ALLERGEN_MAPPINGS.any fun p => p.1 == "tree nut" && p.2.contains "nut") = true ∧
    strMatchAt "nut".data (pyLower "doughnut shop".data) 5 = true ∧
    reSearchBd "nut".data (pyLower "doughnut shop".data) = false ∧
    map_to_common_allergens "doughnut shop" = "" := by
  refine ⟨by decide, by decide, by decide, by decide, by decide⟩

/-- C7: every casing variant of `"contains milk, eggs, and wheat flour"`
(any string with the same lowercasing) maps to exactly `"egg, milk, wheat"`. -/
theorem C7_multi_label (s : String)
    (h : pyLower s.data = pyLower "contains milk, eggs, and wheat flour".data) :
    map_to_common_allergens s = "egg, milk, wheat" := by
  have hnb : pyFalsyOrBlank s.data = false := by
    rw [pyFalsyOrBlank_eq_all]
    cases hall : s.data.all pySpace with
    | false => rfl
    | true =>
      exfalso
      have hid : pyLower s.data = s.data := pyLower_of_allSpace hall
      rw [hid] at h
      have hfalse : s.data.all pySpace = false := by rw [h]; decide
      rw [hall] at hfalse
      exact Bool.noConfusion hfalse
  rw [map_eq_of_not_blank hnb, h]
  decide

/-- Witness for C7 at a mixed-case variant of the input. -/
theorem C7_multi_label_witness :
    map_to_common_allergens "Contains MILK, Eggs, and WHEAT flour" = "egg, milk, wheat" :=
  C7_multi_label "Contains MILK, Eggs, and WHEAT flour" (by decide)

/-- C8: the classifier is case-insensitive — lowercasing the input first
does not change the result; in particular `"MILK"` and `"milk"` map to
identical results. -/
theorem C8_case_insensitive :
    (∀ s : String, map_to_common_allergens (String.mk (pyLower s.data)) =
      map_to_common_allergens s) ∧
    map_to_common_allergens "MILK" = map_to_common_allergens "milk" := by
  constructor
  · intro s
    have hdata : (String.mk (pyLower s.data)).data = pyLower s.data := rfl
    have hcond : pyFalsyOrBlank (pyLower s.data) = pyFalsyOrBlank s.data := by
      rw [pyFalsyOrBlank_eq_all, pyFalsyOrBlank_eq_all]
      unfold pyLower
      rw [List.all_map]
      simp only [Function.comp_def, pySpace_toLower]
    have hlower : pyLower (pyLower s.data) = pyLower s.data := by
      unfold pyLower
      rw [List.map_map]
      simp only [Function.comp_def, toLower_idem]
    unfold map_to_common_allergens
    rw [hdata, hcond, hlower]
  · decide

/-- C9: joining two fields with a space separator never destroys an
existing whole-word match — each label matched on `a` or on `b` alone is
also matched on `a ++ " " ++ b`. -/
theorem C9_concat_superset (a b lbl : String)
    (h : lbl ∈ matchedLabels a ∨ lbl ∈ matchedLabels b) :
    lbl ∈ matchedLabels (a ++ " " ++ b) := by
  have hdata : (a ++ " " ++ b).data = a.data ++ ' ' :: b.data := by
    rw [String.data_append, String.data_append, List.append_assoc]
    rfl
  have hlow : pyLower (a.data ++ ' ' :: b.data) =
      pyLower a.data ++ ' ' :: pyLower b.data := by
    unfold pyLower
    rw [List.map_append, List.map_cons]
    rfl
  have hspc : pyWordChar ' ' = false := by decide
  rcases h with hmem | hmem
  · have hba : pyFalsyOrBlank a.data = false := by
      cases hb0 : pyFalsyOrBlank a.data with
      | false => rfl
      | true =>
        rw [matchedLabels_of_blank hb0] at hmem
        exact absurd hmem (List.not_mem_nil _)
    rw [matchedLabels_of_not_blank hba] at hmem
    obtain ⟨q, hq, hq1⟩ :=
      List.mem_map.mp ((sortedAllergens_perm _).mem_iff.mp hmem)
    obtain ⟨hqmem, hqmatch⟩ := List.mem_filter.mp hq
    obtain ⟨kw, hkw, hspec⟩ := (labelMatches_iff_spec hqmem _).mp hqmatch
    have hocc2 := specOccursWord_append_right (pyLower b.data)
      (kwOK_of_mem hqmem hkw) hspc hspec
    have hmatch2 : labelMatches q.2 (pyLower (a.data ++ ' ' :: b.data)) = true :=
      (labelMatches_iff_spec hqmem _).mpr ⟨kw, hkw, by rw [hlow]; exact hocc2⟩
    have hcb : pyFalsyOrBlank (a ++ " " ++ b).data = false := by
      rw [hdata, pyFalsyOrBlank_eq_all, List.all_append]
      rw [pyFalsyOrBlank_eq_all] at hba
      rw [hba]
      rfl
    rw [matchedLabels_of_not_blank hcb, hdata]
    rw [(sortedAllergens_perm _).mem_iff, ← hq1]
    exact mem_foundAllergens_intro hqmem hmatch2
  · have hbb : pyFalsyOrBlank b.data = false := by
      cases hb0 : pyFalsyOrBlank b.data with
      | false => rfl
      | true =>
        rw [matchedLabels_of_blank hb0] at hmem
        exact absurd hmem (List.not_mem_nil _)
    rw [matchedLabels_of_not_blank hbb] at hmem
    obtain ⟨q, hq, hq1⟩ :=
      List.mem_map.mp ((sortedAllergens_perm _).mem_iff.mp hmem)
    obtain ⟨hqmem, hqmatch⟩ := List.mem_filter.mp hq
    obtain ⟨kw, hkw, hspec⟩ := (labelMatches_iff_spec hqmem _).mp hqmatch
    have hocc2 := specOccursWord_shift (pyLower a.data) hspc hspec
    have hmatch2 : labelMatches q.2 (pyLower (a.data ++ ' ' :: b.data)) = true :=
      (labelMatches_iff_spec hqmem _).mpr ⟨kw, hkw, by rw [hlow]; exact hocc2⟩
    have hcb : pyFalsyOrBlank (a ++ " " ++ b).data = false := by
      rw [hdata, pyFalsyOrBlank_eq_all, List.all_append, List.all_cons]
      rw [pyFalsyOrBlank_eq_all] at hbb
      rw [hbb]
      simp
    rw [matchedLabels_of_not_blank hcb, hdata]
    rw [(sortedAllergens_perm _).mem_iff, ← hq1]
    exact mem_foundAllergens_intro hqmem hmatch2

/-- Witness for C9: `milk` survives the space-joined concatenation
`"milk" ++ " " ++ "wheat"`. -/
theorem C9_concat_superset_witness :
    "milk" ∈ matchedLabels ("milk" ++ " " ++ "wheat") :=
  C9_concat_superset "milk" "wheat" "milk" (Or.inl (by decide))

/-- C10: the public interface also accepts a missing (`None`) cell value:
`not allergen_text` is true for `None` and for the empty string, and the
function returns `""` in both cases without failing. -/
theorem C10_optional_input :
    map_to_common_allergens_opt none = "" ∧
    map_to_common_allergens_opt (some "") = "" := by
  exact ⟨rfl, by decide⟩

end MapAllergens
